import Mathlib

/-!
# Verification of the EPUB parser core (`src/epubParser.ts`)

This file shallowly embeds the EPUB parsing pipeline of the repository's
`src/epubParser.ts` into Lean and proves/refutes the frozen claims about it.

Modelling conventions:

* JavaScript strings are Lean `String`s; operations used by the source
  (`split`, `join`, `startsWith`, `substring`, `toLowerCase`, `includes`)
  are embedded as executable functions over `String.data : List Char`.
* JavaScript `number` values produced by `parseInt` are embedded as `JsNum`,
  which is either an integer or `NaN` (the source never produces fractional
  numbers).
* The DOM trees produced by the external `parseXml` collaborator are embedded
  as the mutual inductive `Xml`/`XmlList`; the CSS selector subset the source
  uses (type selectors, descendant combinators, attribute-value filters,
  `:scope >` direct-child queries) is embedded by executable tree searches in
  document (pre-)order.  `parseXml` itself lives outside the parser core
  (`src/utils.ts` is an external collaborator per the spec), so the pipeline
  is parameterised by an arbitrary `px : String → Xml` parse function.
* JavaScript objects used as string-keyed maps are embedded as association
  lists with JS insertion-order semantics (`jsObjSet` updates an existing key
  in place, otherwise appends).  The special JS ordering of integer-like keys
  is not modelled; no claim depends on it.
* The zip archive is an association list of entries; an entry read can
  succeed, be missing (JSZip's `file()` returns `null`), or throw during
  decompression (`corrupt`, carrying the exception message).
-/

set_option maxRecDepth 4096

/-! ## JavaScript strings: character-level split/join and other helpers -/

/-- JS `s.split(sep)` on the character list, keeping empty pieces
(`"a//b".split("/") = ["a","","b"]`, `"".split("/") = [""]`). -/
def jsSplitCharsOn (sep : Char) : List Char → List (List Char)
  | [] => [[]]
  | c :: t =>
    let r := jsSplitCharsOn sep t
    if c = sep then [] :: r
    else
      match r with
      | h :: t2 => (c :: h) :: t2
      | [] => [[c]]

/-- JS `s.split(sep)` for a one-character separator. -/
def jsSplit (sep : Char) (s : String) : List String :=
  (jsSplitCharsOn sep s.data).map String.mk

/-- JS `parts.join(sep)` on character lists. -/
def jsJoinChars (sep : Char) : List (List Char) → List Char
  | [] => []
  | [x] => x
  | x :: y :: ys => x ++ sep :: jsJoinChars sep (y :: ys)

/-- JS `parts.join(sep)`. -/
def jsJoin (sep : Char) (l : List String) : String :=
  String.mk (jsJoinChars sep (l.map String.data))

/-- JS `s.startsWith(pre)`. -/
def jsStartsWith (s pre : String) : Bool :=
  pre.data.isPrefixOf s.data

/-- JS `s.toLowerCase()` (ASCII case folding suffices for the source's use). -/
def jsToLower (s : String) : String :=
  String.mk (s.data.map Char.toLower)

/-- JS `s.includes(pat)`: some contiguous substring of `s` equals `pat`. -/
def jsIncludes (s pat : String) : Bool :=
  s.data.tails.any (fun t => pat.data.isPrefixOf t)

/-- JS `s.substring(1)` (drop the first code unit). -/
def jsDropFirst (s : String) : String :=
  String.mk (s.data.drop 1)

/-- `path.substring(0, path.lastIndexOf('/') + 1)`: the prefix of `path` up to
and including its last `/`, or `""` when `path` has no `/`. -/
def pathDirOf (path : String) : String :=
  String.mk ((path.data.reverse.dropWhile (fun c => c ≠ '/')).reverse)

/-- Last element of JS `split('/')` (`split` never returns an empty array,
so `pop()` returns its last piece). -/
def jsLastSegment (s : String) : String :=
  (jsSplit '/' s).getLastD ""

/-! ## JavaScript numbers produced by `parseInt` -/

/-- A JS `number` as produced by `parseInt(..., 10)`: an integer or `NaN`. -/
inductive JsNum where
  | int (n : Int)
  | nan
  deriving DecidableEq, Repr

/-- Characters treated as leading whitespace by JS `parseInt`. -/
def isJsSpace (c : Char) : Bool :=
  c = ' ' || c = '\t' || c = '\n' || c = '\r'

/-- Decimal digit test. -/
def isDigitCh (c : Char) : Bool :=
  '0' ≤ c && c ≤ '9'

/-- Value of a list of decimal digit characters (most significant first). -/
def digitsVal (l : List Char) : Nat :=
  l.foldl (fun a c => 10 * a + (c.toNat - 48)) 0

/-- The digit-consuming core of `parseInt`: longest prefix of decimal digits,
`NaN` when there are none (trailing garbage is ignored). -/
def parseIntCore (neg : Bool) (l : List Char) : JsNum :=
  let ds := l.takeWhile isDigitCh
  if ds = [] then JsNum.nan
  else JsNum.int (if neg then -(digitsVal ds : Int) else (digitsVal ds : Int))

/-- JS `parseInt(s, 10)`: skip leading whitespace, take an optional sign, then
the longest prefix of decimal digits. -/
def parseIntJs (s : String) : JsNum :=
  match s.data.dropWhile isJsSpace with
  | [] => JsNum.nan
  | c :: rest =>
    if c = '-' then parseIntCore true rest
    else if c = '+' then parseIntCore false rest
    else parseIntCore false (c :: rest)

/-! ## The path resolver (`resolveRelativePath`, epubParser.ts lines 261-292) -/

/-- One step of the segment walk: `'..'` pops the accumulated stack when
non-empty, `'.'` and empty segments are dropped, anything else is pushed. -/
def resolveStep (acc : List String) (part : String) : List String :=
  if part = ".." then acc.dropLast
  else if part ≠ "." && part.length > 0 then acc ++ [part]
  else acc

/-- `resolveRelativePath(relativePath, basePath)`, embedded statement by
statement from the source: strip a leading slash and return; return the
reference verbatim when the base is empty; otherwise split both, drop the
empty base segments, unconditionally `pop()` the last base segment ("remove
the file part"), walk the reference's segments, and join with `/`. -/
def resolveRelativePath (relativePath basePath : String) : String :=
  if jsStartsWith relativePath "/" then jsDropFirst relativePath
  else if basePath = "" then relativePath
  else
    let parts := jsSplit '/' relativePath
    let baseParts0 := (jsSplit '/' basePath).filter (fun p => p.length > 0)
    let baseParts1 := if baseParts0.length > 0 then baseParts0.dropLast else baseParts0
    jsJoin '/' (parts.foldl resolveStep baseParts1)

/-! ## Specification-side path predicates (for claims C1/C2/C10) -/

/-- The string has a `..` segment (segments split at `/`). -/
def hasDotDotSegment (s : String) : Bool :=
  (jsSplit '/' s).any (fun seg => seg = "..")

/-- "Normalized archive-relative path": no `.` or `..` segments and no
leading slash. -/
def normalizedPath (s : String) : Bool :=
  (!jsStartsWith s "/") && (jsSplit '/' s).all (fun seg => seg ≠ "." && seg ≠ "..")

/-- The base-directory restriction used by the amended C2: no `.` or `..`
segments. -/
def dirNoDotSegments (s : String) : Bool :=
  (jsSplit '/' s).all (fun seg => seg ≠ "." && seg ≠ "..")

/-! ### Sanity examples (claims' concrete path computations) -/

example : resolveRelativePath "../images/cover.jpg" "OEBPS/text/" = "images/cover.jpg" := by decide
example : resolveRelativePath "/OEBPS/cover.jpg" "OEBPS/text/" = "OEBPS/cover.jpg" := by decide
example : resolveRelativePath "." "" = "." := by decide

/-! ## The DOM produced by the `parseXml` collaborator

`Xml`/`XmlList` model the element/text-node trees the source queries through
the DOM API.  The source's CSS selectors are case-sensitive exact tag matches
against the parsed XML documents (NCX/OPF/XHTML), embedded here as
tag-predicate searches in pre-order (= DOM document order).  One deliberate
approximation: for a scoped `element.querySelectorAll("a b")` query the `a`
ancestor is looked for inside the queried element's subtree (including the
element itself), whereas a browser would also accept ancestors above the
element; the two agree on every document in which a `navPoint` element does
not sit inside a `navLabel`, which holds for all NCX-shaped documents. -/

mutual
inductive Xml where
  | elem (tag : String) (attrs : List (String × String)) (children : XmlList)
  | text (s : String)
inductive XmlList where
  | nil
  | cons (x : Xml) (xs : XmlList)
end

/-- Build an `XmlList` from a Lean list (used to write concrete documents). -/
def XmlList.ofList : List Xml → XmlList
  | [] => .nil
  | x :: xs => .cons x (XmlList.ofList xs)

/-- Element constructor taking a plain Lean list of children. -/
def Xml.el (tag : String) (attrs : List (String × String)) (children : List Xml) : Xml :=
  Xml.elem tag attrs (XmlList.ofList children)

/-- `element.getAttribute(name)`: the first attribute with the given name,
`none` when absent (DOM returns `null`). -/
def xmlGetAttr (x : Xml) (name : String) : Option String :=
  match x with
  | .elem _ attrs _ => (attrs.find? (fun kv => kv.1 = name)).map (fun kv => kv.2)
  | .text _ => none

/-- JS attribute truthiness: present and non-empty. -/
def attrTruthy (x : Xml) (name : String) : Option String :=
  match xmlGetAttr x name with
  | some v => if v = "" then none else some v
  | none => none

/-- The element's tag, `""` for text nodes. -/
def xmlTag : Xml → String
  | .elem t _ _ => t
  | .text _ => ""

mutual
/-- `node.textContent`: concatenation of all text descendants. -/
def xmlTextContent : Xml → String
  | .text s => s
  | .elem _ _ cs => xmlTextContentList cs
def xmlTextContentList : XmlList → String
  | .nil => ""
  | .cons c rest => xmlTextContent c ++ xmlTextContentList rest
end

mutual
/-- All proper descendants of a node satisfying `p`, in document order. -/
def xmlDesc (p : Xml → Bool) : Xml → List Xml
  | .text _ => []
  | .elem _ _ cs => xmlDescList p cs
def xmlDescList (p : Xml → Bool) : XmlList → List Xml
  | .nil => []
  | .cons c rest =>
    (if p c then [c] else []) ++ xmlDesc p c ++ xmlDescList p rest
end

/-- Document-level `querySelectorAll(p)`: the root element is a candidate too. -/
def docAll (p : Xml → Bool) (root : Xml) : List Xml :=
  (if p root then [root] else []) ++ xmlDesc p root

/-- Document-level `querySelector(p)`. -/
def docFirst (p : Xml → Bool) (root : Xml) : Option Xml :=
  (docAll p root).head?

/-- Element-scoped `querySelector(p)` (proper descendants only). -/
def elemFirst (p : Xml → Bool) (x : Xml) : Option Xml :=
  (xmlDesc p x).head?

/-- Descendants satisfying `p` that have an ancestor tagged `anc` at or below
the queried node, for descendant-combinator selectors such as
`manifest item` and `navLabel text`.  `flag` records whether the current list
of nodes already lies under an `anc` element. -/
def xmlDescUnder (anc : String) (p : Xml → Bool) (flag : Bool) : XmlList → List Xml
  | .nil => []
  | .cons c rest =>
    (if flag && p c then [c] else []) ++
    (match c with
     | .elem t _ cs => xmlDescUnder anc p (flag || t = anc) cs
     | .text _ => []) ++
    xmlDescUnder anc p flag rest

/-- `x.querySelectorAll("anc tag-satisfying-p")` scoped at `x` (also used at
document level, where `x` is the root element). -/
def qsDescUnder (anc : String) (p : Xml → Bool) (x : Xml) : List Xml :=
  match x with
  | .elem t _ cs => xmlDescUnder anc p (t = anc) cs
  | .text _ => []

/-- Tag-equality predicate on element nodes. -/
def isTag (tag : String) (x : Xml) : Bool :=
  match x with
  | .elem t _ _ => t = tag
  | .text _ => false

/-- Predicate for `tag[attr="value"]` selectors. -/
def isTagAttr (tag attr value : String) (x : Xml) : Bool :=
  match x with
  | .elem t attrs _ => t = tag && (attrs.find? (fun kv => kv.1 = attr)).map (fun kv => kv.2) = some value
  | .text _ => false

/-- Direct children of a node with the given tag (`:scope > tag`). -/
def xmlDirectChildrenTag (tag : String) (x : Xml) : List Xml :=
  match x with
  | .elem _ _ cs => go cs
  | .text _ => []
where
  go : XmlList → List Xml
    | .nil => []
    | .cons c rest => (if isTag tag c then [c] else []) ++ go rest

/-- The local name of a (possibly prefixed) tag: the part after the last `:`.
The source's namespace-insensitive metadata selectors
(`dc\:title, *|title`) reduce to a local-name match. -/
def localNameOf (t : String) : String :=
  (jsSplit ':' t).getLastD ""

/-- Predicate for the metadata selectors: element whose local name is `name`. -/
def isLocalName (name : String) (x : Xml) : Bool :=
  match x with
  | .elem t _ _ => localNameOf t = name
  | .text _ => false

/-! ## JS objects used as string-keyed maps -/

/-- A JS object used as a map: association list in insertion order. -/
abbrev JsObj (α : Type) : Type := List (String × α)

/-- `obj[key]` read (first — and by construction only — binding of the key). -/
def jsObjGet {α : Type} (o : JsObj α) (k : String) : Option α :=
  match o with
  | [] => none
  | (k0, v0) :: rest => if k0 = k then some v0 else jsObjGet rest k

/-- `obj[key] = v`: update an existing key in place, otherwise append
(JS string-key insertion-order semantics). -/
def jsObjSet {α : Type} (o : JsObj α) (k : String) (v : α) : JsObj α :=
  match o with
  | [] => [(k, v)]
  | (k0, v0) :: rest =>
    if k0 = k then (k, v) :: rest else (k0, v0) :: jsObjSet rest k v

/-- `Object.values(obj)` in insertion order. -/
def jsObjValues {α : Type} (o : JsObj α) : List α :=
  o.map (fun kv => kv.2)

/-! ## The archive (JSZip collaborator) -/

/-- One archive entry: readable (carrying both its text decoding and its raw
bytes) or corrupt (its `async` read rejects with the given message). -/
inductive ZipEntry where
  | entry (str : String) (bytes : List Nat)
  | corrupt (msg : String)
  deriving DecidableEq, Repr

/-- A loaded archive: entries by internal path. -/
abbrev Zip : Type := List (String × ZipEntry)

/-- Outcome of `zip.file(path)?.async('string')`. -/
inductive ReadRes where
  | missing
  | ok (s : String)
  | err (msg : String)
  deriving DecidableEq, Repr

/-- Outcome of `zip.file(path)?.async('uint8array')`. -/
inductive ReadBytesRes where
  | missing
  | ok (b : List Nat)
  | err (msg : String)
  deriving DecidableEq, Repr

/-- Text read of an archive entry. -/
def zipReadText (z : Zip) (p : String) : ReadRes :=
  match (List.find? (fun e => e.1 = p) z).map (fun e => e.2) with
  | none => ReadRes.missing
  | some (ZipEntry.entry s _) => ReadRes.ok s
  | some (ZipEntry.corrupt m) => ReadRes.err m

/-- Byte read of an archive entry. -/
def zipReadBytes (z : Zip) (p : String) : ReadBytesRes :=
  match (List.find? (fun e => e.1 = p) z).map (fun e => e.2) with
  | none => ReadBytesRes.missing
  | some (ZipEntry.entry _ b) => ReadBytesRes.ok b
  | some (ZipEntry.corrupt m) => ReadBytesRes.err m

/-! ## The parser's data model (epubParser.ts interfaces) -/

structure EpubMetadata where
  title : Option String := none
  creator : Option String := none
  publisher : Option String := none
  language : Option String := none
  identifier : Option String := none
  description : Option String := none
  published : Option String := none
  modified : Option String := none
  rights : Option String := none
  deriving DecidableEq, Repr

structure EpubNavPoint where
  id : String
  label : String
  href : String
  order : JsNum
  children : List EpubNavPoint

structure EpubSpine where
  items : List String
  toc : String
  deriving DecidableEq, Repr

structure EpubManifestItem where
  id : String
  href : String
  mediaType : String
  deriving DecidableEq, Repr

structure EpubContent where
  metadata : EpubMetadata
  spine : EpubSpine
  manifest : JsObj EpubManifestItem
  navPoints : List EpubNavPoint
  coverPath : Option String
  coverData : Option (List Nat)
  content : JsObj String
  resources : JsObj (List Nat)
  basePath : String

/-! ## Package stage: metadata, manifest, spine -/

/-- One Dublin-Core metadata field: first descendant of the metadata element
whose local name matches, taken when its text content is truthy (non-empty). -/
def dcField (metadataEl : Xml) (name : String) : Option String :=
  match elemFirst (isLocalName name) metadataEl with
  | some el => if xmlTextContent el = "" then none else some (xmlTextContent el)
  | none => none

/-- `parseMetadata(opfDoc)` (epubParser.ts lines 200-228). -/
def parseMetadata (opfDoc : Xml) : EpubMetadata :=
  match docFirst (isTag "metadata") opfDoc with
  | none => {}
  | some mEl =>
    { title := dcField mEl "title"
      creator := dcField mEl "creator"
      publisher := dcField mEl "publisher"
      language := dcField mEl "language"
      identifier := dcField mEl "identifier"
      description := dcField mEl "description"
      rights := dcField mEl "rights"
      published := dcField mEl "date"
      modified :=
        match elemFirst (isTagAttr "meta" "property" "dcterms:modified") mEl with
        | some el => if xmlTextContent el = "" then none else some (xmlTextContent el)
        | none => none }

/-- The `manifest item` element list of the package document. -/
def manifestItemEls (opfDoc : Xml) : List Xml :=
  qsDescUnder "manifest" (isTag "item") opfDoc

/-- `parseManifest(opfDoc, basePath)` (epubParser.ts lines 233-256): every
item carrying truthy `id`, `href` and `media-type` attributes is recorded
with its href resolved against the package base directory. -/
def parseManifest (opfDoc : Xml) (basePath : String) : JsObj EpubManifestItem :=
  (manifestItemEls opfDoc).foldl
    (fun acc item =>
      match attrTruthy item "id", attrTruthy item "href", attrTruthy item "media-type" with
      | some id, some href, some mediaType =>
        jsObjSet acc id { id := id, href := resolveRelativePath href basePath, mediaType := mediaType }
      | _, _, _ => acc)
    []

/-- `parseSpine(opfDoc)` (epubParser.ts lines 297-318). -/
def parseSpine (opfDoc : Xml) : EpubSpine :=
  match docFirst (isTag "spine") opfDoc with
  | none => { items := [], toc := "" }
  | some spineEl =>
    { toc := (xmlGetAttr spineEl "toc").getD ""
      items := (xmlDesc (isTag "itemref") spineEl).foldl
        (fun acc el =>
          match attrTruthy el "idref" with
          | some idref => acc ++ [idref]
          | none => acc)
        [] }

/-! ## Navigation stage -/

/-- `const order = playOrder ? parseInt(playOrder, 10) : 0` (epubParser.ts
line 356): `parseInt` of a truthy `playOrder` attribute, `0` when the
attribute is absent or empty. -/
def navOrderOf (el : Xml) : JsNum :=
  match xmlGetAttr el "playOrder" with
  | some po => if po = "" then JsNum.int 0 else parseIntJs po
  | none => JsNum.int 0

mutual
/-- `parseNavPoint(element)` (epubParser.ts lines 344-376): requires a
truthy `id`, a `navLabel text` descendant with truthy text content, and a
`content` descendant; `order` is `parseInt(playOrder, 10)` when the
attribute is truthy and `0` otherwise; children come from the direct-child
(`:scope > navPoint`) elements, kept in document order. -/
def parseNavPoint : Xml → Option EpubNavPoint
  | .text _ => none
  | .elem t attrs cs =>
    let el := Xml.elem t attrs cs
    let id := attrTruthy el "id"
    let labelEl := (xmlDescUnder "navLabel" (isTag "text") (t = "navLabel") cs).head?
    let contentEl := elemFirst (isTag "content") el
    match id, labelEl, contentEl with
    | some i, some lEl, some cEl =>
      if xmlTextContent lEl = "" then none
      else
        some
          { id := i
            label := xmlTextContent lEl
            href := (xmlGetAttr cEl "src").getD ""
            order := navOrderOf el
            children := parseNavChildren cs }
    | _, _, _ => none
/-- The filtered direct-child recursion of `parseNavPoint`. -/
def parseNavChildren : XmlList → List EpubNavPoint
  | .nil => []
  | .cons c rest =>
    (if isTag "navPoint" c then
      match parseNavPoint c with
      | some np => [np]
      | none => []
    else []) ++ parseNavChildren rest
end

/-- The JS comparator `(a, b) => a.order - b.order` interpreted as a
"not greater" test; on `NaN` the comparator result is treated as zero, which
is how a stable JS sort leaves such pairs in place. -/
def navLeB (a b : JsNum) : Bool :=
  match a, b with
  | .int m, .int n => m ≤ n
  | _, _ => true

/-- Stable insertion used to embed JS `Array.prototype.sort` (stable since
ES2019); for a consistent comparator the stable sorted permutation is unique,
so this agrees with the engine's sort whenever no `NaN` orders are present. -/
def orderedInsertNav (a : EpubNavPoint) : List EpubNavPoint → List EpubNavPoint
  | [] => [a]
  | b :: t => if navLeB a.order b.order then a :: b :: t else b :: orderedInsertNav a t

/-- Stable sort by `order` (embedding of `navPoints.sort((a, b) => a.order - b.order)`). -/
def sortNav : List EpubNavPoint → List EpubNavPoint
  | [] => []
  | a :: t => orderedInsertNav a (sortNav t)

/-- `parseNavPoints(ncxDoc)` (epubParser.ts lines 323-339): collect
`parseNavPoint` over ALL `navPoint` descendants of the `navMap` element
(`navMap.querySelectorAll('navPoint')` is a descendant query, not a
direct-child one) and sort the resulting array by `order`. -/
def parseNavPoints (ncxDoc : Xml) : List EpubNavPoint :=
  sortNav
    (match docFirst (isTag "navMap") ncxDoc with
     | none => []
     | some navMap => (xmlDesc (isTag "navPoint") navMap).filterMap parseNavPoint)

/-! ## Cover resolution -/

/-- `isImageType` (epubParser.ts lines 423-425). -/
def isImageType (mediaType : String) : Bool :=
  jsStartsWith mediaType "image/"

/-- Strategy 1: `meta[name="cover"]` whose truthy `content` attribute is a
manifest id. -/
def coverStrategy1 (opfDoc : Xml) (manifest : JsObj EpubManifestItem) : Option String :=
  match docFirst (isTagAttr "meta" "name" "cover") opfDoc with
  | some coverMeta =>
    match attrTruthy coverMeta "content" with
    | some coverId => (jsObjGet manifest coverId).map (fun it => it.href)
    | none => none
  | none => none

/-- Strategy 2: a manifest item literally id'd `cover` or `cover-image`
whose media type is an image type. -/
def coverStrategy2 (manifest : JsObj EpubManifestItem) : Option String :=
  match jsObjGet manifest "cover" with
  | some it =>
    if isImageType it.mediaType then some it.href
    else
      match jsObjGet manifest "cover-image" with
      | some it2 => if isImageType it2.mediaType then some it2.href else none
      | none => none
  | none =>
    match jsObjGet manifest "cover-image" with
    | some it2 => if isImageType it2.mediaType then some it2.href else none
    | none => none

/-- Strategy 3: the first `manifest item[properties="cover-image"]` element
whose truthy `id` is in the manifest (its media type is not checked). -/
def coverStrategy3 (opfDoc : Xml) (manifest : JsObj EpubManifestItem) : Option String :=
  go (qsDescUnder "manifest" (isTagAttr "item" "properties" "cover-image") opfDoc)
where
  go : List Xml → Option String
    | [] => none
    | el :: rest =>
      match attrTruthy el "id" with
      | some i =>
        match jsObjGet manifest i with
        | some it => some it.href
        | none => go rest
      | none => go rest

/-- Strategy 4: the first image-typed manifest value whose id or href
contains `cover` case-insensitively. -/
def coverStrategy4 (manifest : JsObj EpubManifestItem) : Option String :=
  go (jsObjValues manifest)
where
  go : List EpubManifestItem → Option String
    | [] => none
    | it :: rest =>
      if isImageType it.mediaType &&
          (jsIncludes (jsToLower it.id) "cover" || jsIncludes (jsToLower it.href) "cover") then
        some it.href
      else go rest

/-- `findCoverPath(opfDoc, manifest)` (epubParser.ts lines 381-418), embedded
with the source's early-return control flow. -/
def findCoverPath (opfDoc : Xml) (manifest : JsObj EpubManifestItem) : Option String :=
  match coverStrategy1 opfDoc manifest with
  | some h => some h
  | none =>
    match coverStrategy2 manifest with
    | some h => some h
    | none =>
      match coverStrategy3 opfDoc manifest with
      | some h => some h
      | none => coverStrategy4 manifest

/-! ## Content assembly: markup rewriting and the top-level parse -/

/-- `setAttribute(name, value)`: update the first attribute with that name in
place, otherwise append it. -/
def setAttrList (attrs : List (String × String)) (name value : String) : List (String × String) :=
  match attrs with
  | [] => [(name, value)]
  | (k, v) :: rest =>
    if k = name then (name, value) :: rest else (k, v) :: setAttrList rest name value

/-- `classList.add(token)` on the serialized `class` attribute: parse the
existing value into whitespace-separated tokens, append the token when it is
not already present, and re-serialize joined by single spaces. -/
def classListAdd (attrs : List (String × String)) (token : String) : List (String × String) :=
  let cur := ((attrs.find? (fun kv => kv.1 = "class")).map (fun kv => kv.2)).getD ""
  let tokens := (jsSplit ' ' cur).filter (fun t => t ≠ "")
  if tokens.contains token then setAttrList attrs "class" (jsJoin ' ' tokens)
  else setAttrList attrs "class" (jsJoin ' ' (tokens ++ [token]))

/-- The per-element attribute rewriting done by `processHtml` (epubParser.ts
lines 168-190): `img` elements with a truthy, non-`http` `src` get a
`data-original-src` copy and the `epub-image` marker class; `link` elements
with `rel="stylesheet"` and a truthy, non-`http` `href` get a
`data-original-href` copy. -/
def rewriteAttrs (tag : String) (attrs : List (String × String)) : List (String × String) :=
  if tag = "img" then
    match (attrs.find? (fun kv => kv.1 = "src")).map (fun kv => kv.2) with
    | some src =>
      if src ≠ "" && !jsStartsWith src "http" then
        classListAdd (setAttrList attrs "data-original-src" src) "epub-image"
      else attrs
    | none => attrs
  else if tag = "link" && (attrs.find? (fun kv => kv.1 = "rel")).map (fun kv => kv.2) = some "stylesheet" then
    match (attrs.find? (fun kv => kv.1 = "href")).map (fun kv => kv.2) with
    | some href =>
      if href ≠ "" && !jsStartsWith href "http" then
        setAttrList attrs "data-original-href" href
      else attrs
    | none => attrs
  else attrs

mutual
/-- Apply an attribute rewriting at every element of the tree (the source
mutates the static `querySelectorAll` snapshots in place; attribute edits
never change which elements match the tag/`rel` selectors, so a single
structural pass is equivalent). -/
def xmlMapAttrs (f : String → List (String × String) → List (String × String)) : Xml → Xml
  | .text s => .text s
  | .elem t a cs => .elem t (f t a) (xmlMapAttrsList f cs)
def xmlMapAttrsList (f : String → List (String × String) → List (String × String)) : XmlList → XmlList
  | .nil => .nil
  | .cons c rest => .cons (xmlMapAttrs f c) (xmlMapAttrsList f rest)
end

mutual
/-- `XMLSerializer().serializeToString`, up to formatting details no claim
inspects (text is emitted un-escaped, empty elements self-close). -/
def serializeXml : Xml → String
  | .text s => s
  | .elem t a cs =>
    let attrsStr := a.foldr (fun kv acc => " " ++ kv.1 ++ "=\"" ++ kv.2 ++ "\"" ++ acc) ""
    match cs with
    | .nil => "<" ++ t ++ attrsStr ++ "/>"
    | _ => "<" ++ t ++ attrsStr ++ ">" ++ serializeXmlList cs ++ "</" ++ t ++ ">"
def serializeXmlList : XmlList → String
  | .nil => ""
  | .cons c rest => serializeXml c ++ serializeXmlList rest
end

/-- `processHtml(html, htmlPath, basePath, manifest)` (epubParser.ts lines
162-195).  `htmlPath`, `basePath` and `manifest` are accepted but unused
beyond the source's dead `htmlDir` computation. -/
def processHtml (px : String → Xml) (html : String) (htmlPath basePath : String)
    (manifest : JsObj EpubManifestItem) : String :=
  let _htmlDir := pathDirOf htmlPath
  let _ := basePath
  let _ := manifest
  serializeXml (xmlMapAttrs rewriteAttrs (px html))

/-- The error placeholder stored when reading a markup entry throws
(epubParser.ts line 141). -/
def errorPlaceholder (msg : String) : String :=
  "<p>Error loading content: " ++ msg ++ "</p>"

/-- Markup media-type test of the content loop (epubParser.ts lines 131-132). -/
def isMarkupType (mediaType : String) : Bool :=
  mediaType = "application/xhtml+xml" || mediaType = "text/html"

/-- The resource-extraction pass (epubParser.ts lines 110-127): for every
image-typed manifest value, read its bytes; a missing entry or a throwing
read is skipped; a successful read is stored under the full href and, when
non-empty, under the bare filename. -/
def buildResources (z : Zip) (manifest : JsObj EpubManifestItem) : JsObj (List Nat) :=
  (jsObjValues manifest).foldl
    (fun resources item =>
      if isImageType item.mediaType then
        match zipReadBytes z item.href with
        | .ok b =>
          let r1 := jsObjSet resources item.href b
          let fileName := jsLastSegment item.href
          if fileName ≠ "" then jsObjSet r1 fileName b else r1
        | .missing => resources
        | .err _ => resources
      else resources)
    []

/-- The body of the markup-extraction loop (epubParser.ts lines 130-144):
for a markup-typed manifest value, read its text; a successful non-empty
read stores the rewritten markup under the item id, an empty or missing
read stores nothing, and a throwing read stores the error placeholder. -/
def contentStep (px : String → Xml) (z : Zip) (manifest : JsObj EpubManifestItem)
    (basePath : String) (content : JsObj String) (item : EpubManifestItem) : JsObj String :=
  if isMarkupType item.mediaType then
    match zipReadText z item.href with
    | .ok s =>
      if s ≠ "" then jsObjSet content item.id (processHtml px s item.href basePath manifest)
      else content
    | .missing => content
    | .err msg => jsObjSet content item.id (errorPlaceholder msg)
  else content

/-- The markup-extraction pass: fold the loop body over the manifest values
in iteration order, starting from the empty `content` object. -/
def buildContent (px : String → Xml) (z : Zip) (manifest : JsObj EpubManifestItem)
    (basePath : String) : JsObj String :=
  (jsObjValues manifest).foldl (contentStep px z manifest basePath) []

/-- Failures surfaced by `parseEpub` (thrown `Error`s and promise
rejections). -/
inductive EpubError where
  | invalidZip
  | missingContainer
  | missingRootfile
  | missingOpf (path : String)
  | entryCorrupt (path : String) (msg : String)
  deriving DecidableEq, Repr

/-- The input byte buffer, abstracted by the result of `JSZip.loadAsync`:
either an unreadable archive or its entry table (the byte-buffer-to-zip
decoding is a fixed function of the bytes, so quantifying over `EpubData`
covers quantifying over buffers). -/
inductive EpubData where
  | invalid
  | zip (z : Zip)

/-- `parseEpub(data)` (epubParser.ts lines 50-157), parameterised by the
external `parseXml` collaborator `px`.  Stage order and every
abort/fall-through decision mirror the source: missing or empty
`META-INF/container.xml` and missing rootfile `full-path` are fatal, a
corrupt read of the container, OPF, NCX or cover entry rejects the whole
parse (those `await`s sit outside any `try`), a missing or empty NCX yields
an empty navigation forest, and a missing cover entry yields absent cover
bytes. -/
def parseEpub (px : String → Xml) (data : EpubData) : Except EpubError EpubContent :=
  match data with
  | .invalid => .error .invalidZip
  | .zip z =>
    match zipReadText z "META-INF/container.xml" with
    | .err msg => .error (.entryCorrupt "META-INF/container.xml" msg)
    | .missing => .error .missingContainer
    | .ok containerXml =>
      if containerXml = "" then .error .missingContainer
      else
        let containerDoc := px containerXml
        match (docFirst (isTag "rootfile") containerDoc).bind (fun rf => attrTruthy rf "full-path") with
        | none => .error .missingRootfile
        | some rootfilePath =>
          match zipReadText z rootfilePath with
          | .err msg => .error (.entryCorrupt rootfilePath msg)
          | .missing => .error (.missingOpf rootfilePath)
          | .ok opfContent =>
            if opfContent = "" then .error (.missingOpf rootfilePath)
            else
              let opfDoc := px opfContent
              let basePath := pathDirOf rootfilePath
              let metadata := parseMetadata opfDoc
              let manifest := parseManifest opfDoc basePath
              let spine := parseSpine opfDoc
              let navRes : Except EpubError (List EpubNavPoint) :=
                match (jsObjGet manifest spine.toc).map (fun it => it.href) with
                | none => .ok []
                | some tocHref =>
                  match zipReadText z tocHref with
                  | .err msg => .error (.entryCorrupt tocHref msg)
                  | .missing => .ok []
                  | .ok tocContent =>
                    if tocContent = "" then .ok []
                    else .ok (parseNavPoints (px tocContent))
              match navRes with
              | .error e => .error e
              | .ok navPoints =>
                let coverPath := findCoverPath opfDoc manifest
                let coverRes : Except EpubError (Option (List Nat)) :=
                  match coverPath with
                  | none => .ok none
                  | some p =>
                    match zipReadBytes z p with
                    | .err msg => .error (.entryCorrupt p msg)
                    | .missing => .ok none
                    | .ok b => .ok (some b)
                match coverRes with
                | .error e => .error e
                | .ok coverData =>
                  .ok
                    { metadata := metadata
                      spine := spine
                      manifest := manifest
                      navPoints := navPoints
                      coverPath := coverPath
                      coverData := coverData
                      content := buildContent px z manifest basePath
                      resources := buildResources z manifest
                      basePath := basePath }

theorem jsSplitCharsOn_ne_nil (sep : Char) (l : List Char) : jsSplitCharsOn sep l ≠ [] := by
  induction l with
  | nil => simp [jsSplitCharsOn]
  | cons c t ih =>
    simp only [jsSplitCharsOn]
    by_cases h : c = sep
    · simp [h]
    · simp only [h, if_false]
      cases hr : jsSplitCharsOn sep t with
      | nil => exact absurd hr ih
      | cons a b => simp

theorem not_mem_of_mem_jsSplitCharsOn (sep : Char) (l : List Char) :
    ∀ cs ∈ jsSplitCharsOn sep l, sep ∉ cs := by
  induction l with
  | nil => intro cs h; simp [jsSplitCharsOn] at h; simp [h]
  | cons c t ih =>
    intro cs h
    simp only [jsSplitCharsOn] at h
    by_cases hc : c = sep
    · rw [if_pos hc] at h
      rcases List.mem_cons.mp h with h1 | h1
      · subst h1; simp
      · exact ih cs h1
    · rw [if_neg hc] at h
      cases hr : jsSplitCharsOn sep t with
      | nil => exact absurd hr (jsSplitCharsOn_ne_nil sep t)
      | cons a b =>
        rw [hr] at h
        rcases List.mem_cons.mp h with h1 | h1
        · subst h1
          intro hmem
          rcases List.mem_cons.mp hmem with h2 | h2
          · exact hc h2.symm
          · exact ih a (hr ▸ List.mem_cons_self a b) h2
        · exact ih cs (hr ▸ List.mem_cons_of_mem a h1)

theorem jsSplitCharsOn_of_not_mem (sep : Char) (x : List Char) (hx : sep ∉ x) :
    jsSplitCharsOn sep x = [x] := by
  induction x with
  | nil => simp [jsSplitCharsOn]
  | cons c t ih =>
    have hc : c ≠ sep := fun h => hx (by simp [h])
    have ht : sep ∉ t := fun h => hx (List.mem_cons_of_mem c h)
    simp only [jsSplitCharsOn, hc, if_false, ih ht]

theorem jsSplitCharsOn_append (sep : Char) (x rest : List Char) (hx : sep ∉ x) :
    jsSplitCharsOn sep (x ++ sep :: rest) = x :: jsSplitCharsOn sep rest := by
  induction x with
  | nil => simp [jsSplitCharsOn]
  | cons c t ih =>
    have hc : c ≠ sep := fun h => hx (by simp [h])
    have ht : sep ∉ t := fun h => hx (List.mem_cons_of_mem c h)
    simp only [List.cons_append, jsSplitCharsOn, hc, if_false, List.append_eq]
    rw [ih ht]

theorem jsSplitCharsOn_jsJoinChars (sep : Char) (ls : List (List Char)) (hne : ls ≠ [])
    (hfree : ∀ x ∈ ls, sep ∉ x) :
    jsSplitCharsOn sep (jsJoinChars sep ls) = ls := by
  induction ls with
  | nil => exact absurd rfl hne
  | cons x ys ih =>
    cases ys with
    | nil =>
      simp only [jsJoinChars]
      exact jsSplitCharsOn_of_not_mem sep x (hfree x (List.mem_cons_self x []))
    | cons y zs =>
      simp only [jsJoinChars]
      rw [jsSplitCharsOn_append sep x _ (hfree x (List.mem_cons_self x _))]
      congr 1
      exact ih (by simp) (fun a ha => hfree a (List.mem_cons_of_mem x ha))

theorem string_mk_data (s : String) : String.mk s.data = s := rfl

theorem jsSplit_jsJoin (l : List String) (hne : l ≠ [])
    (hfree : ∀ s ∈ l, '/' ∉ s.data) :
    jsSplit '/' (jsJoin '/' l) = l := by
  unfold jsSplit jsJoin
  rw [show (String.mk (jsJoinChars '/' (l.map String.data))).data = jsJoinChars '/' (l.map String.data) from rfl]
  rw [jsSplitCharsOn_jsJoinChars '/' (l.map String.data) (by simpa using hne)
    (by intro x hx; rcases List.mem_map.mp hx with ⟨s, hs, rfl⟩; exact hfree s hs)]
  rw [List.map_map]
  exact List.map_id l

/-- A well-formed output segment: non-empty, not a dot segment, no slash. -/
def goodSeg (s : String) : Prop :=
  s ≠ "" ∧ s ≠ "." ∧ s ≠ ".." ∧ '/' ∉ s.data

theorem no_slash_of_mem_jsSplit (s seg : String) (h : seg ∈ jsSplit '/' s) :
    '/' ∉ seg.data := by
  unfold jsSplit at h
  rcases List.mem_map.mp h with ⟨cs, hcs, rfl⟩
  exact not_mem_of_mem_jsSplitCharsOn '/' s.data cs hcs

theorem jsJoinChars_cons_eq (sep : Char) (x : List Char) (rest : List (List Char)) :
    ∃ suffix, jsJoinChars sep (x :: rest) = x ++ suffix := by
  cases rest with
  | nil => exact ⟨[], by simp [jsJoinChars]⟩
  | cons y ys => exact ⟨sep :: jsJoinChars sep (y :: ys), by simp [jsJoinChars]⟩

theorem jsStartsWith_jsJoin_false (x : String) (rest : List String)
    (hx : x ≠ "") (hslash : '/' ∉ x.data) :
    jsStartsWith (jsJoin '/' (x :: rest)) "/" = false := by
  unfold jsStartsWith jsJoin
  rcases jsJoinChars_cons_eq '/' x.data (rest.map String.data) with ⟨suffix, heq⟩
  rw [show (x :: rest).map String.data = x.data :: rest.map String.data from rfl, heq]
  cases hd : x.data with
  | nil =>
    exact absurd (by rw [← string_mk_data x, hd]) hx
  | cons c cs =>
    have hc : c ≠ '/' := by
      intro h; exact hslash (by rw [hd, h]; exact List.mem_cons_self _ _)
    rw [show ("/" : String).data = ['/'] from rfl]
    simp [List.isPrefixOf, hd, Ne.symm hc]

theorem normalizedPath_true_iff (s : String) :
    normalizedPath s = true ↔
      jsStartsWith s "/" = false ∧ ∀ seg ∈ jsSplit '/' s, seg ≠ "." ∧ seg ≠ ".." := by
  unfold normalizedPath
  simp [List.all_eq_true, Bool.and_eq_true]

theorem resolveStep_good (acc : List String) (p : String) (hp : '/' ∉ p.data)
    (hacc : ∀ x ∈ acc, goodSeg x) : ∀ x ∈ resolveStep acc p, goodSeg x := by
  intro x hx
  unfold resolveStep at hx
  by_cases h1 : p = ".."
  · rw [if_pos h1] at hx
    exact hacc x (List.dropLast_subset acc hx)
  · rw [if_neg h1] at hx
    by_cases h2 : (p ≠ "." && p.length > 0) = true
    · rw [if_pos h2] at hx
      rcases List.mem_append.mp hx with h | h
      · exact hacc x h
      · have hx2 : x = p := by simpa using h
        rw [hx2]
        have h2' : p ≠ "." ∧ 0 < p.length := by simpa using h2
        refine ⟨?_, h2'.1, h1, hp⟩
        intro he
        rw [he] at h2'
        exact absurd h2'.2 (by decide)
    · rw [if_neg h2] at hx
      exact hacc x hx

theorem foldl_resolveStep_good (parts : List String)
    (hparts : ∀ p ∈ parts, '/' ∉ p.data) :
    ∀ acc, (∀ x ∈ acc, goodSeg x) → ∀ x ∈ parts.foldl resolveStep acc, goodSeg x := by
  induction parts with
  | nil => intro acc hacc x hx; exact hacc x hx
  | cons p rest ih =>
    intro acc hacc x hx
    rw [List.foldl_cons] at hx
    exact ih (fun q hq => hparts q (List.mem_cons_of_mem p hq))
      (resolveStep acc p)
      (resolveStep_good acc p (hparts p (List.mem_cons_self p rest)) hacc) x hx

/-- Core normalization property of the resolver: a reference that is already
normalized, resolved against a base directory free of dot segments, yields a
normalized path. -/
theorem resolve_normalized (r d : String) (hr : normalizedPath r = true)
    (hd : dirNoDotSegments d = true) :
    normalizedPath (resolveRelativePath r d) = true := by
  rcases (normalizedPath_true_iff r).mp hr with ⟨hslash, hsegs⟩
  unfold resolveRelativePath
  rw [hslash]
  simp only [Bool.false_eq_true, if_false]
  by_cases hdempty : d = ""
  · rw [if_pos hdempty]; exact hr
  · rw [if_neg hdempty]
    have hdsegs : ∀ seg ∈ jsSplit '/' d, seg ≠ "." ∧ seg ≠ ".." := by
      intro seg hseg
      have := List.all_eq_true.mp hd seg hseg
      constructor
      · intro h; subst h; simp at this
      · intro h; subst h; simp at this
    -- every element of the final stack is a good segment
    have hbase0 : ∀ x ∈ (jsSplit '/' d).filter (fun p => p.length > 0), goodSeg x := by
      intro x hx
      rcases List.mem_filter.mp hx with ⟨hmem, hlen⟩
      rcases hdsegs x hmem with ⟨h1, h2⟩
      refine ⟨?_, h1, h2, no_slash_of_mem_jsSplit d x hmem⟩
      intro he; subst he; simp [String.length] at hlen
    have hbase1 : ∀ x ∈ (if ((jsSplit '/' d).filter (fun p => p.length > 0)).length > 0
        then ((jsSplit '/' d).filter (fun p => p.length > 0)).dropLast
        else (jsSplit '/' d).filter (fun p => p.length > 0)), goodSeg x := by
      intro x hx
      by_cases hc : ((jsSplit '/' d).filter (fun p => p.length > 0)).length > 0
      · rw [if_pos hc] at hx; exact hbase0 x (List.dropLast_subset _ hx)
      · rw [if_neg hc] at hx; exact hbase0 x hx
    have hfinal : ∀ x ∈ (jsSplit '/' r).foldl resolveStep
        (if ((jsSplit '/' d).filter (fun p => p.length > 0)).length > 0
         then ((jsSplit '/' d).filter (fun p => p.length > 0)).dropLast
         else (jsSplit '/' d).filter (fun p => p.length > 0)), goodSeg x :=
      foldl_resolveStep_good (jsSplit '/' r) (fun p hp => no_slash_of_mem_jsSplit r p hp) _ hbase1
    -- now the joined string is normalized
    set final := (jsSplit '/' r).foldl resolveStep
        (if ((jsSplit '/' d).filter (fun p => p.length > 0)).length > 0
         then ((jsSplit '/' d).filter (fun p => p.length > 0)).dropLast
         else (jsSplit '/' d).filter (fun p => p.length > 0)) with hfin
    cases hfc : final with
    | nil => decide
    | cons x rest =>
      have hgood := hfc ▸ hfinal
      have hxg : goodSeg x := hgood x (List.mem_cons_self x rest)
      rw [normalizedPath_true_iff]
      constructor
      · exact jsStartsWith_jsJoin_false x rest hxg.1 hxg.2.2.2
      · rw [jsSplit_jsJoin (x :: rest) (by simp)
          (fun s hs => (hgood s hs).2.2.2)]
        intro seg hseg
        exact ⟨(hgood seg hseg).2.1, (hgood seg hseg).2.2.1⟩

/-! ## Association-list (JS object) lemmas -/

theorem mem_jsObjSet {α : Type} (o : JsObj α) (k : String) (v : α) (kv : String × α)
    (h : kv ∈ jsObjSet o k v) : kv = (k, v) ∨ kv ∈ o := by
  induction o with
  | nil => simp [jsObjSet] at h; simp [h]
  | cons hd tl ih =>
    unfold jsObjSet at h
    by_cases hk : hd.1 = k
    · rw [if_pos hk] at h
      rcases List.mem_cons.mp h with h1 | h1
      · exact Or.inl h1
      · exact Or.inr (List.mem_cons_of_mem hd h1)
    · rw [if_neg hk] at h
      rcases List.mem_cons.mp h with h1 | h1
      · exact Or.inr (h1 ▸ List.mem_cons_self hd tl)
      · rcases ih h1 with h2 | h2
        · exact Or.inl h2
        · exact Or.inr (List.mem_cons_of_mem hd h2)

theorem jsObjGet_set_eq {α : Type} (o : JsObj α) (k : String) (v : α) :
    jsObjGet (jsObjSet o k v) k = some v := by
  induction o with
  | nil => simp [jsObjSet, jsObjGet]
  | cons hd tl ih =>
    unfold jsObjSet
    by_cases hk : hd.1 = k
    · rw [if_pos hk]; simp [jsObjGet]
    · rw [if_neg hk]
      show jsObjGet ((hd.1, hd.2) :: jsObjSet tl k v) k = some v
      unfold jsObjGet
      rw [if_neg hk]
      exact ih

theorem jsObjGet_set_ne {α : Type} (o : JsObj α) (k k' : String) (v : α) (hne : k' ≠ k) :
    jsObjGet (jsObjSet o k v) k' = jsObjGet o k' := by
  induction o with
  | nil => simp [jsObjSet, jsObjGet, Ne.symm hne]
  | cons hd tl ih =>
    unfold jsObjSet
    by_cases hk : hd.1 = k
    · rw [if_pos hk]
      unfold jsObjGet
      have h2 : ¬ hd.1 = k' := by rw [hk]; exact Ne.symm hne
      rw [if_neg (Ne.symm hne), if_neg h2]
    · rw [if_neg hk]
      show jsObjGet ((hd.1, hd.2) :: jsObjSet tl k v) k' = jsObjGet (hd :: tl) k'
      unfold jsObjGet
      by_cases hh : hd.1 = k'
      · rw [if_pos hh, if_pos hh]
      · rw [if_neg hh, if_neg hh]
        exact ih

theorem keys_nodup_jsObjSet {α : Type} (o : JsObj α) (k : String) (v : α)
    (h : (o.map Prod.fst).Nodup) : ((jsObjSet o k v).map Prod.fst).Nodup := by
  induction o with
  | nil => simp [jsObjSet]
  | cons hd tl ih =>
    unfold jsObjSet
    rw [List.map_cons, List.nodup_cons] at h
    rcases h with ⟨hnot, htl⟩
    by_cases hk : hd.1 = k
    · rw [if_pos hk]
      simp only [List.map_cons, List.nodup_cons]
      exact ⟨by rw [← hk]; exact hnot, htl⟩
    · rw [if_neg hk]
      simp only [List.map_cons, List.nodup_cons]
      refine ⟨?_, ih htl⟩
      intro hmem
      rcases List.mem_map.mp hmem with ⟨kv, hkv, hfst⟩
      rcases mem_jsObjSet tl k v kv hkv with h1 | h1
      · exact hk (by rw [← hfst, h1])
      · exact hnot (hfst ▸ List.mem_map_of_mem Prod.fst h1)

/-! ## Manifest well-formedness and href normalization -/

/-- The manifest object's invariant by construction: keys are distinct and
every stored item's `id` equals its key. -/
def manifestWF (o : JsObj EpubManifestItem) : Prop :=
  (o.map Prod.fst).Nodup ∧ ∀ kv ∈ o, (kv : String × EpubManifestItem).2.id = kv.1

theorem parseManifest_wf (opfDoc : Xml) (basePath : String) :
    manifestWF (parseManifest opfDoc basePath) := by
  unfold parseManifest
  have main : ∀ (items : List Xml) (acc : JsObj EpubManifestItem), manifestWF acc →
      manifestWF (items.foldl (fun acc item =>
        match attrTruthy item "id", attrTruthy item "href", attrTruthy item "media-type" with
        | some id, some href, some mediaType =>
          jsObjSet acc id { id := id, href := resolveRelativePath href basePath, mediaType := mediaType }
        | _, _, _ => acc) acc) := by
    intro items
    induction items with
    | nil => intro acc hacc; exact hacc
    | cons item rest ih =>
      intro acc hacc
      rw [List.foldl_cons]
      apply ih
      cases hid : attrTruthy item "id" with
      | none => simpa using hacc
      | some i =>
        cases hhref : attrTruthy item "href" with
        | none => simpa using hacc
        | some hr =>
          cases hmt : attrTruthy item "media-type" with
          | none => simpa using hacc
          | some mt =>
            simp only
            constructor
            · exact keys_nodup_jsObjSet acc i _ hacc.1
            · intro kv hkv
              rcases mem_jsObjSet acc i _ kv hkv with h1 | h1
              · rw [h1]
              · exact hacc.2 kv h1
  exact main (manifestItemEls opfDoc) [] ⟨by simp, by simp⟩

theorem parseManifest_href_normalized (opfDoc : Xml) (basePath : String)
    (hbp : dirNoDotSegments basePath = true)
    (hhrefs : ∀ el ∈ manifestItemEls opfDoc, Option.all normalizedPath (attrTruthy el "href") = true) :
    ∀ kv ∈ parseManifest opfDoc basePath,
      normalizedPath (kv : String × EpubManifestItem).2.href = true := by
  unfold parseManifest
  have main : ∀ (items : List Xml), (∀ el ∈ items, Option.all normalizedPath (attrTruthy el "href") = true) →
      ∀ (acc : JsObj EpubManifestItem), (∀ kv ∈ acc,
        normalizedPath (kv : String × EpubManifestItem).2.href = true) →
      ∀ kv ∈ (items.foldl (fun acc item =>
        match attrTruthy item "id", attrTruthy item "href", attrTruthy item "media-type" with
        | some id, some href, some mediaType =>
          jsObjSet acc id { id := id, href := resolveRelativePath href basePath, mediaType := mediaType }
        | _, _, _ => acc) acc),
        normalizedPath (kv : String × EpubManifestItem).2.href = true := by
    intro items
    induction items with
    | nil => intro _ acc hacc kv hkv; exact hacc kv hkv
    | cons item rest ih =>
      intro hitems acc hacc
      rw [List.foldl_cons]
      apply ih (fun el hel => hitems el (List.mem_cons_of_mem item hel))
      cases hid : attrTruthy item "id" with
      | none => simpa using hacc
      | some i =>
        cases hhref : attrTruthy item "href" with
        | none => simpa using hacc
        | some hr =>
          cases hmt : attrTruthy item "media-type" with
          | none => simpa using hacc
          | some mt =>
            simp only
            intro kv hkv
            rcases mem_jsObjSet acc i _ kv hkv with h1 | h1
            · rw [h1]
              have h0 := hitems item (List.mem_cons_self item rest)
              rw [hhref] at h0
              simp only [Option.all] at h0
              exact resolve_normalized hr basePath h0 hbp
            · exact hacc kv h1
  exact main (manifestItemEls opfDoc) hhrefs [] (by simp)

/-! ## What the markup map holds for each markup item (claim C7) -/

/-- The per-item outcome the content loop produces for a markup-typed item:
rewritten markup for a non-empty successful read, nothing for a missing
entry or empty text, the error placeholder for a throwing read. -/
def contentOutcome (px : String → Xml) (z : Zip) (manifest : JsObj EpubManifestItem)
    (basePath : String) (item : EpubManifestItem) : Option String :=
  match zipReadText z item.href with
  | .ok s => if s ≠ "" then some (processHtml px s item.href basePath manifest) else none
  | .missing => none
  | .err msg => some (errorPlaceholder msg)

theorem foldl_contentStep_not_mem (px : String → Xml) (z : Zip)
    (manifest : JsObj EpubManifestItem) (basePath : String) (l : List EpubManifestItem)
    (i : String) (hni : ∀ it ∈ l, it.id ≠ i) :
    ∀ acc, jsObjGet (l.foldl (contentStep px z manifest basePath) acc) i = jsObjGet acc i := by
  induction l with
  | nil => intro acc; rfl
  | cons hd rest ih =>
    intro acc
    rw [List.foldl_cons]
    rw [ih (fun it hit => hni it (List.mem_cons_of_mem hd hit))]
    unfold contentStep
    have hne : i ≠ hd.id := Ne.symm (hni hd (List.mem_cons_self hd rest))
    by_cases hm : isMarkupType hd.mediaType = true
    · rw [if_pos hm]
      cases zipReadText z hd.href with
      | ok s =>
        dsimp only
        by_cases hs : s ≠ ""
        · rw [if_pos hs]
          exact jsObjGet_set_ne acc hd.id i _ hne
        · rw [if_neg hs]
      | missing => rfl
      | err msg => exact jsObjGet_set_ne acc hd.id i _ hne
    · rw [if_neg hm]

theorem foldl_contentStep_lookup (px : String → Xml) (z : Zip)
    (manifest : JsObj EpubManifestItem) (basePath : String) (l : List EpubManifestItem)
    (item : EpubManifestItem) (hmem : item ∈ l)
    (hnd : (l.map (fun it => it.id)).Nodup)
    (hmk : isMarkupType item.mediaType = true) :
    ∀ acc, jsObjGet acc item.id = none →
      jsObjGet (l.foldl (contentStep px z manifest basePath) acc) item.id =
        contentOutcome px z manifest basePath item := by
  induction l with
  | nil => exact absurd hmem (List.not_mem_nil item)
  | cons hd rest ih =>
    intro acc hacc
    rw [List.map_cons, List.nodup_cons] at hnd
    rcases hnd with ⟨hhd, hrest⟩
    rw [List.foldl_cons]
    rcases List.mem_cons.mp hmem with h1 | h1
    · subst h1
      have hni : ∀ it ∈ rest, it.id ≠ item.id := by
        intro it hit he
        exact hhd (he ▸ List.mem_map_of_mem (fun it => it.id) hit)
      rw [foldl_contentStep_not_mem px z manifest basePath rest item.id hni]
      unfold contentStep contentOutcome
      rw [if_pos hmk]
      cases zipReadText z item.href with
      | ok s =>
        dsimp only
        by_cases hs : s ≠ ""
        · rw [if_pos hs, if_pos hs]
          exact jsObjGet_set_eq acc item.id _
        · rw [if_neg hs, if_neg hs]
          exact hacc
      | missing => exact hacc
      | err msg => exact jsObjGet_set_eq acc item.id _
    · have hne : item.id ≠ hd.id := by
        intro he
        exact hhd (he ▸ List.mem_map_of_mem (fun it => it.id) h1)
      apply ih h1 hrest
      unfold contentStep
      by_cases hm : isMarkupType hd.mediaType = true
      · rw [if_pos hm]
        cases zipReadText z hd.href with
        | ok s =>
          dsimp only
          by_cases hs : s ≠ ""
          · rw [if_pos hs]
            rw [jsObjGet_set_ne acc hd.id item.id _ hne]
            exact hacc
          · rw [if_neg hs]; exact hacc
        | missing => exact hacc
        | err msg =>
          rw [jsObjGet_set_ne acc hd.id item.id _ hne]
          exact hacc
      · rw [if_neg hm]; exact hacc

theorem buildContent_lookup (px : String → Xml) (z : Zip)
    (manifest : JsObj EpubManifestItem) (basePath : String)
    (hwf : manifestWF manifest) (item : EpubManifestItem)
    (hmem : item ∈ jsObjValues manifest)
    (hmk : isMarkupType item.mediaType = true) :
    jsObjGet (buildContent px z manifest basePath) item.id =
      contentOutcome px z manifest basePath item := by
  unfold buildContent
  have hnd : ((jsObjValues manifest).map (fun it => it.id)).Nodup := by
    have hmap : (jsObjValues manifest).map (fun it => it.id) = manifest.map Prod.fst := by
      unfold jsObjValues
      rw [List.map_map]
      apply List.map_congr_left
      intro kv hkv
      exact hwf.2 kv hkv
    rw [hmap]
    exact hwf.1
  exact foldl_contentStep_lookup px z manifest basePath (jsObjValues manifest) item hmem hnd hmk
    [] rfl

theorem parseEpub_ok_inv (px : String → Xml) (z : Zip) (m : EpubContent)
    (h : parseEpub px (.zip z) = .ok m) :
    (∃ opfDoc : Xml, m.manifest = parseManifest opfDoc m.basePath) ∧
    m.content = buildContent px z m.manifest m.basePath := by
  unfold parseEpub at h
  dsimp only at h
  repeat' split at h
  all_goals try exact (Except.noConfusion h : _)
  injection h with h2
  subst h2
  exact ⟨⟨_, rfl⟩, rfl⟩

/-! ## Sortedness of the navigation forest (claim C4) -/

/-- The integer under a `JsNum`, defaulting `NaN` to 0 (only ever used under
a no-`NaN` hypothesis). -/
def JsNum.toIntD : JsNum → Int
  | .int n => n
  | .nan => 0

/-- "Ascending by order" on navigation points. -/
def navIntLe (a b : EpubNavPoint) : Prop :=
  a.order.toIntD ≤ b.order.toIntD

theorem mem_orderedInsertNav (a x : EpubNavPoint) (l : List EpubNavPoint) :
    x ∈ orderedInsertNav a l ↔ x = a ∨ x ∈ l := by
  induction l with
  | nil => simp [orderedInsertNav]
  | cons b t ih =>
    unfold orderedInsertNav
    by_cases hc : navLeB a.order b.order = true
    · rw [if_pos hc]
      simp [List.mem_cons]
    · rw [if_neg hc]
      simp only [List.mem_cons, ih]
      tauto

theorem mem_sortNav (x : EpubNavPoint) (l : List EpubNavPoint) :
    x ∈ sortNav l ↔ x ∈ l := by
  induction l with
  | nil => simp [sortNav]
  | cons a t ih =>
    unfold sortNav
    rw [mem_orderedInsertNav, ih]
    simp [List.mem_cons]

theorem navLeB_int (m n : Int) : navLeB (JsNum.int m) (JsNum.int n) = decide (m ≤ n) := rfl

theorem sorted_orderedInsertNav (a : EpubNavPoint) (l : List EpubNavPoint)
    (ha : a.order ≠ JsNum.nan) (hl : ∀ y ∈ l, y.order ≠ JsNum.nan)
    (hs : l.Sorted navIntLe) : (orderedInsertNav a l).Sorted navIntLe := by
  induction l with
  | nil => simp [orderedInsertNav]
  | cons b t ih =>
    rcases List.sorted_cons.mp hs with ⟨hb, ht⟩
    obtain ⟨m, hm⟩ : ∃ m, a.order = JsNum.int m := by
      cases hma : a.order with
      | int m => exact ⟨m, rfl⟩
      | nan => exact absurd hma ha
    obtain ⟨n, hn⟩ : ∃ n, b.order = JsNum.int n := by
      cases hnb : b.order with
      | int n => exact ⟨n, rfl⟩
      | nan => exact absurd hnb (hl b (List.mem_cons_self b t))
    unfold orderedInsertNav
    by_cases hc : navLeB a.order b.order = true
    · rw [if_pos hc]
      rw [List.sorted_cons]
      refine ⟨?_, hs⟩
      intro y hy
      have hab : navIntLe a b := by
        rw [hm, hn, navLeB_int] at hc
        unfold navIntLe
        rw [hm, hn]
        exact of_decide_eq_true hc
      rcases List.mem_cons.mp hy with h1 | h1
      · rw [h1]; exact hab
      · exact le_trans hab (hb y h1)
    · rw [if_neg hc]
      rw [List.sorted_cons]
      constructor
      · intro y hy
        rcases (mem_orderedInsertNav a y t).mp hy with h1 | h1
        · rw [h1]
          rw [hm, hn, navLeB_int] at hc
          unfold navIntLe
          rw [hm, hn]
          have : ¬ (m ≤ n) := fun hle => hc (decide_eq_true hle)
          exact le_of_lt (lt_of_not_le this)
        · exact hb y h1
      · exact ih (fun y hy => hl y (List.mem_cons_of_mem b hy)) ht

theorem sorted_sortNav (l : List EpubNavPoint) (h : ∀ y ∈ l, y.order ≠ JsNum.nan) :
    (sortNav l).Sorted navIntLe := by
  induction l with
  | nil => simp [sortNav]
  | cons a t ih =>
    unfold sortNav
    apply sorted_orderedInsertNav a (sortNav t) (h a (List.mem_cons_self a t))
    · intro y hy
      exact h y (List.mem_cons_of_mem a ((mem_sortNav y t).mp hy))
    · exact ih (fun y hy => h y (List.mem_cons_of_mem a hy))

/-! ## `parseInt` on plain numerals (claim C8) -/

theorem isJsSpace_of_digit (c : Char) (h : isDigitCh c = true) : isJsSpace c = false := by
  by_cases h1 : c = ' '
  · rw [h1] at h; exact absurd h (by decide)
  · by_cases h2 : c = '\t'
    · rw [h2] at h; exact absurd h (by decide)
    · by_cases h3 : c = '\n'
      · rw [h3] at h; exact absurd h (by decide)
      · by_cases h4 : c = '\r'
        · rw [h4] at h; exact absurd h (by decide)
        · simp [isJsSpace, h1, h2, h3, h4]

theorem takeWhile_all_digits (l : List Char) (h : ∀ c ∈ l, isDigitCh c = true) :
    l.takeWhile isDigitCh = l := by
  induction l with
  | nil => rfl
  | cons c t ih =>
    rw [List.takeWhile_cons, if_pos (h c (List.mem_cons_self c t))]
    rw [ih (fun d hd => h d (List.mem_cons_of_mem c hd))]

/-- On a non-empty all-digit string, JS `parseInt` returns the standard
positional decimal value of the digits. -/
theorem parseIntJs_all_digits (s : String) (hne : s ≠ "")
    (hdig : ∀ c ∈ s.data, isDigitCh c = true) :
    parseIntJs s = JsNum.int (digitsVal s.data) := by
  unfold parseIntJs
  cases hd : s.data with
  | nil => exact absurd (by rw [← string_mk_data s, hd]) hne
  | cons c t =>
    have hc : isDigitCh c = true := h_all c (by rw [hd]; exact List.mem_cons_self c t)
    rw [List.dropWhile_cons, if_neg (by rw [isJsSpace_of_digit c hc]; simp)]
    have hcm : ¬ c = '-' := by intro he; rw [he] at hc; exact absurd hc (by decide)
    have hcp : ¬ c = '+' := by intro he; rw [he] at hc; exact absurd hc (by decide)
    dsimp only
    rw [if_neg hcm, if_neg hcp]
    unfold parseIntCore
    rw [takeWhile_all_digits (c :: t) (fun d hdm => h_all d (by rw [hd]; exact hdm))]
    rw [if_neg (by simp)]
    simp
where
  h_all : ∀ c ∈ s.data, isDigitCh c = true := hdig

theorem parseNavPoint_order (x : Xml) (np : EpubNavPoint)
    (h : parseNavPoint x = some np) : np.order = navOrderOf x := by
  cases x with
  | text s => exact absurd h (by simp [parseNavPoint])
  | elem t attrs cs =>
    unfold parseNavPoint at h
    dsimp only at h
    repeat' split at h
    all_goals try exact (Option.noConfusion h : _)
    injection h with h2
    subst h2
    rfl

/-- On a non-empty string whose characters are neither digits, whitespace,
nor a sign, JS `parseInt` returns `NaN`. -/
theorem parseIntJs_no_digits (s : String) (hne : s ≠ "")
    (h : ∀ c ∈ s.data, isDigitCh c = false ∧ isJsSpace c = false ∧ c ≠ '-' ∧ c ≠ '+') :
    parseIntJs s = JsNum.nan := by
  unfold parseIntJs
  cases hd : s.data with
  | nil => exact absurd (by rw [← string_mk_data s, hd]) hne
  | cons c t =>
    have hc := h c (by rw [hd]; exact List.mem_cons_self c t)
    rw [List.dropWhile_cons, if_neg (by rw [hc.2.1]; simp)]
    dsimp only
    rw [if_neg hc.2.2.1, if_neg hc.2.2.2]
    unfold parseIntCore
    rw [List.takeWhile_cons]
    simp [hc.1]

/-! ## Concrete example documents and archives used by the claim theorems -/

/-- A well-formed NCX navigation point element with the given id, playOrder,
label, content src, and extra (nested) children. -/
def navPointEl (id po label src : String) (kids : List Xml) : Xml :=
  Xml.el "navPoint" [("id", id), ("playOrder", po)]
    ([Xml.el "navLabel" [] [Xml.el "text" [] [Xml.text label]],
      Xml.el "content" [("src", src)] []] ++ kids)

/-- NCX document with one top-level navigation point `a` containing one
nested navigation point `b` (the shape of every nested real-world NCX). -/
def exNcxNested : Xml :=
  Xml.el "ncx" []
    [Xml.el "navMap" []
      [navPointEl "a" "1" "Chapter A" "a.html"
        [navPointEl "b" "2" "Section B" "b.html" []]]]

/-- NCX document with three flat top-level points whose `playOrder` values
appear as 3, 1, 2 in source order (the spec's worked example). -/
def exNcx312 : Xml :=
  Xml.el "ncx" []
    [Xml.el "navMap" []
      [navPointEl "p3" "3" "Chapter 3" "c3.html" [],
       navPointEl "p1" "1" "Chapter 1" "c1.html" [],
       navPointEl "p2" "2" "Chapter 2" "c2.html" []]]

/-- A navigation point whose two children carry descending playOrders 5, 4
in source order (to observe that children are not re-sorted). -/
def exNavParent54 : Xml :=
  navPointEl "p" "1" "Parent" "p.html"
    [navPointEl "c5" "5" "Late" "c5.html" [],
     navPointEl "c4" "4" "Early" "c4.html" []]

/-- A navigation point with a non-numeric `playOrder`. -/
def exC8 : Xml :=
  navPointEl "c1" "chapter" "Chapter" "c1.html" []

def dummyNavPoint : EpubNavPoint :=
  { id := "", label := "", href := "", order := JsNum.int 0, children := [] }

def exNpC8 : EpubNavPoint := (parseNavPoint exC8).getD dummyNavPoint

/-- Package document with a `properties="cover-image"` item `img1`, no
`meta[name="cover"]`, and no item id'd `cover`/`cover-image` (the spec's
cover-resolution worked example). -/
def exOpf5 : Xml :=
  Xml.el "package" []
    [Xml.el "manifest" []
      [Xml.el "item" [("id", "img1"), ("href", "images/c.png"),
        ("media-type", "image/png"), ("properties", "cover-image")] [],
       Xml.el "item" [("id", "ch1"), ("href", "ch1.html"),
        ("media-type", "application/xhtml+xml")] []]]

def exMan5 : JsObj EpubManifestItem := parseManifest exOpf5 "OEBPS/"

/-- Container document pointing at `content.opf`. -/
def exContainerDoc : Xml :=
  Xml.el "container" []
    [Xml.el "rootfiles" []
      [Xml.el "rootfile" [("full-path", "content.opf"), ("media-type", "application/oebps-package+xml")] []]]

/-- Package document declaring a single markup item `ch1` at `ch1.html`. -/
def exOpfC7 : Xml :=
  Xml.el "package" []
    [Xml.el "manifest" []
      [Xml.el "item" [("id", "ch1"), ("href", "ch1.html"),
        ("media-type", "application/xhtml+xml")] []],
     Xml.el "spine" [] []]

/-- Parse-function table for the example archives (stands for the external
`parseXml` on the concrete XML strings these archives would contain). -/
def exPxC7 (s : String) : Xml :=
  if s = "containerXml" then exContainerDoc
  else if s = "opfXml" then exOpfC7
  else Xml.text ""

/-- Archive whose package declares markup item `ch1` but which has no entry
at `ch1.html`. -/
def exZipC7 : Zip :=
  [("META-INF/container.xml", ZipEntry.entry "containerXml" []),
   ("content.opf", ZipEntry.entry "opfXml" [])]

/-- Archive that does carry the `ch1.html` markup entry. -/
def exZipW : Zip :=
  [("META-INF/container.xml", ZipEntry.entry "containerXml" []),
   ("content.opf", ZipEntry.entry "opfXml" []),
   ("ch1.html", ZipEntry.entry "htmlText" [])]

def dummyContent : EpubContent :=
  { metadata := {}, spine := { items := [], toc := "" }, manifest := [],
    navPoints := [], coverPath := none, coverData := none, content := [],
    resources := [], basePath := "" }

def exM7W : EpubContent := (parseEpub exPxC7 (.zip exZipW)).toOption.getD dummyContent

def exItemW : EpubManifestItem :=
  { id := "ch1", href := "ch1.html", mediaType := "application/xhtml+xml" }

/-! ## Claim theorems -/

/-- C1: the spec's worked example `resolve("../images/cover.jpg",
"OEBPS/text/") = "OEBPS/images/cover.jpg"` fails on the code: because the
source unconditionally pops the last base segment (even when `basePath` ends
with `/` and therefore carries no trailing filename component), the `OEBPS`
directory is lost and the code returns `"images/cover.jpg"`.  This theorem
evaluates the embedded code at the failing input. -/
theorem claim_C1_code_result :
    resolveRelativePath "../images/cover.jpg" "OEBPS/text/" = "images/cover.jpg" ∧
    resolveRelativePath "../images/cover.jpg" "OEBPS/text/" ≠ "OEBPS/images/cover.jpg" := by
  decide

/-- C2 counterexample: the claim as stated is false.  `r = "."` contains no
`..` segment, yet `resolve(".", "")` returns `"."` verbatim (the empty-base
early return), which contains a `.` segment — so not every resolved href is
normalized when the package document sits at the archive root. -/
theorem claim_C2_counterexample :
    hasDotDotSegment "." = false ∧
    normalizedPath (resolveRelativePath "." "") = false := by
  decide

/-- C2 (amended): for every reference `r` that is itself normalized (no `.`
or `..` segments and no leading slash) and every base directory `d` free of
`.`&`..` segments, `resolve(r, d)` is normalized; consequently every href
recorded by `parseManifest` from such item attributes against such a base
directory is a normalized archive-relative path. -/
theorem claim_C2_amended :
    (∀ r d, normalizedPath r = true → dirNoDotSegments d = true →
      normalizedPath (resolveRelativePath r d) = true) ∧
    (∀ opfDoc basePath, dirNoDotSegments basePath = true →
      (∀ el ∈ manifestItemEls opfDoc, Option.all normalizedPath (attrTruthy el "href") = true) →
      ∀ kv ∈ parseManifest opfDoc basePath,
        normalizedPath (kv : String × EpubManifestItem).2.href = true) :=
  ⟨resolve_normalized, parseManifest_href_normalized⟩

/-- C2 witness: the amended theorem applied at concrete inputs. -/
theorem claim_C2_witness :
    normalizedPath (resolveRelativePath "images/cover.jpg" "OEBPS/") = true ∧
    normalizedPath ({ id := "img1", href := "images/c.png", mediaType := "image/png" :
      EpubManifestItem }).href = true :=
  ⟨claim_C2_amended.1 "images/cover.jpg" "OEBPS/" (by decide) (by decide),
   claim_C2_amended.2 exOpf5 "OEBPS/" (by decide) (by decide)
     ("img1", { id := "img1", href := "images/c.png", mediaType := "image/png" }) (by decide)⟩

/-- C3: the claim (one top-level NavPoint per direct-child navigation-point
element, nested points only inside their parents) fails on the code: the
source collects `navPoint` elements with a descendant query over the whole
navigation map, so a nested point appears both inside its parent's children
and again as a top-level entry.  Evaluated at a navMap with one direct-child
point `a` containing one nested point `b`: the forest has two top-level
entries, `a` (with child `b`) and `b` again. -/
theorem claim_C3_code_result :
    (parseNavPoints exNcxNested).map (fun np => np.id) = ["a", "b"] ∧
    (parseNavPoints exNcxNested).map (fun np => np.children.map (fun c => c.id)) = [["b"], []] ∧
    (xmlDirectChildrenTag "navPoint"
      (Xml.el "navMap" [] [navPointEl "a" "1" "Chapter A" "a.html"
        [navPointEl "b" "2" "Section B" "b.html" []]])).length = 1 := by
  exact ⟨rfl, rfl, rfl⟩

/-- C4: the top-level forest returned by the navigation parse is sorted
ascending by `order` (stated for forests whose orders are all integers —
`playOrder` values that parse as numbers), and the children of a parsed
navigation point stay in source document order and are never re-sorted: a
parent whose children carry playOrders 5, 4 in source order keeps them as
[5, 4], and top-level playOrders 3, 1, 2 come out labelled 1, 2, 3. -/
theorem claim_C4 :
    (∀ ncxDoc, (∀ np ∈ parseNavPoints ncxDoc, np.order ≠ JsNum.nan) →
      (parseNavPoints ncxDoc).Sorted navIntLe) ∧
    (parseNavPoints exNcx312).map (fun np => (np.label, np.order)) =
      [("Chapter 1", JsNum.int 1), ("Chapter 2", JsNum.int 2), ("Chapter 3", JsNum.int 3)] ∧
    (parseNavPoint exNavParent54).map (fun np => np.children.map (fun c => c.order)) =
      some [JsNum.int 5, JsNum.int 4] := by
  refine ⟨?_, rfl, rfl⟩
  intro ncxDoc h
  unfold parseNavPoints at h ⊢
  apply sorted_sortNav
  intro y hy
  exact h y ((mem_sortNav y _).mpr hy)

/-- C4 witness: sortedness applied at the concrete 3/1/2 document. -/
theorem claim_C4_witness : (parseNavPoints exNcx312).Sorted navIntLe :=
  claim_C4.1 exNcx312 (by decide)

/-- C5: cover resolution is the short-circuit composition of its four
strategies in the source's fixed order, and on the spec's worked example
(item `img1` with `properties="cover-image"`, no `meta[name="cover"]`,
strategies 1-2 failing) it returns `img1`'s manifest href. -/
theorem claim_C5 :
    (∀ opfDoc manifest, findCoverPath opfDoc manifest =
      ((coverStrategy1 opfDoc manifest).orElse (fun _ =>
        ((coverStrategy2 manifest).orElse (fun _ =>
          ((coverStrategy3 opfDoc manifest).orElse (fun _ =>
            coverStrategy4 manifest))))))) ∧
    coverStrategy1 exOpf5 exMan5 = none ∧
    coverStrategy2 exMan5 = none ∧
    coverStrategy3 exOpf5 exMan5 = some "images/c.png" ∧
    findCoverPath exOpf5 exMan5 = some "images/c.png" ∧
    jsObjGet exMan5 "img1" = some { id := "img1", href := "images/c.png", mediaType := "image/png" } := by
  refine ⟨?_, rfl, rfl, rfl, rfl, rfl⟩
  intro opfDoc manifest
  unfold findCoverPath
  cases coverStrategy1 opfDoc manifest with
  | some h => rfl
  | none =>
    cases coverStrategy2 manifest with
    | some h => rfl
    | none =>
      cases coverStrategy3 opfDoc manifest with
      | some h => rfl
      | none => rfl

/-- C6: when the archive has no entry at the fixed path
`META-INF/container.xml`, the top-level parse fails with the typed
missing-container error; the `Except.error` result carries no document model
fields. -/
theorem claim_C6 (px : String → Xml) (z : Zip)
    (h : ∀ e ∈ z, (e : String × ZipEntry).1 ≠ "META-INF/container.xml") :
    parseEpub px (.zip z) = .error .missingContainer := by
  have hf : List.find? (fun e => e.1 = "META-INF/container.xml") z = none := by
    rw [List.find?_eq_none]
    intro x hx
    simp [h x hx]
  have hread : zipReadText z "META-INF/container.xml" = ReadRes.missing := by
    unfold zipReadText
    rw [hf]
    rfl
  unfold parseEpub
  dsimp only
  rw [hread]

/-- C6 witness: the empty archive. -/
theorem claim_C6_witness :
    parseEpub (fun _ => Xml.text "") (.zip []) = .error .missingContainer :=
  claim_C6 (fun _ => Xml.text "") [] (by simp)

/-- C7 counterexample: the claim as stated is false.  In an archive whose
package declares the markup item `ch1` but which has no entry at its href,
the parse succeeds and the markup map simply has NO entry under `ch1` — the
error placeholder is only stored when the read throws, not when the entry is
missing. -/
theorem claim_C7_counterexample :
    (parseEpub exPxC7 (.zip exZipC7)).isOk = true ∧
    ((parseEpub exPxC7 (.zip exZipC7)).toOption.bind
      (fun m => jsObjGet m.manifest "ch1")).map (fun it => it.mediaType) =
        some "application/xhtml+xml" ∧
    ((parseEpub exPxC7 (.zip exZipC7)).toOption.bind
      (fun m => jsObjGet m.content "ch1")) = none := by
  exact ⟨rfl, rfl, rfl⟩

/-- C7 (amended): in every successfully parsed archive, each markup-typed
manifest item id maps in the markup map to the rewritten markup when its
entry reads as non-empty text, to the error placeholder when the read
throws, and to no entry at all when the entry is missing from the archive or
reads as empty text; the outcome is per item and the parse succeeds
regardless. -/
theorem claim_C7_amended (px : String → Xml) (z : Zip) (m : EpubContent)
    (hok : parseEpub px (.zip z) = .ok m) :
    ∀ item ∈ jsObjValues m.manifest, isMarkupType item.mediaType = true →
      jsObjGet m.content item.id = contentOutcome px z m.manifest m.basePath item := by
  intro item hmem hmk
  rcases parseEpub_ok_inv px z m hok with ⟨⟨opfDoc, hman⟩, hcont⟩
  have hwf : manifestWF m.manifest := by
    rw [hman]
    exact parseManifest_wf opfDoc m.basePath
  rw [hcont]
  exact buildContent_lookup px z m.manifest m.basePath hwf item hmem hmk

/-- C7 witness: the amended theorem applied to a concrete archive whose
markup entry is present, yielding the rewritten-markup outcome. -/
theorem claim_C7_witness :
    jsObjGet exM7W.content "ch1" =
      contentOutcome exPxC7 exZipW exM7W.manifest exM7W.basePath exItemW :=
  claim_C7_amended exPxC7 exZipW exM7W (by rfl) exItemW (by decide) (by decide)

/-- C8 counterexample: the claim as stated is false.  For a navigation point
whose `playOrder` is the non-numeric string `"chapter"`, the code stores
`parseInt("chapter", 10) = NaN` as the order, not 0. -/
theorem claim_C8_counterexample :
    (parseNavPoint exC8).map (fun np => np.order) = some JsNum.nan ∧
    JsNum.nan ≠ JsNum.int 0 := by
  exact ⟨rfl, by decide⟩

/-- C8 (amended): a parsed navigation point's order is `parseInt(playOrder,
10)` when the attribute is present and non-empty and 0 when it is absent or
empty; on a non-empty all-digit attribute `parseInt` yields the standard
positional decimal value, while on a string with no leading digits (after
optional whitespace and sign) it yields `NaN`, not 0. -/
theorem claim_C8_amended :
    (∀ x np, parseNavPoint x = some np → np.order = navOrderOf x) ∧
    (∀ s : String, s ≠ "" → (∀ c ∈ s.data, isDigitCh c = true) →
      parseIntJs s = JsNum.int (digitsVal s.data)) ∧
    (∀ s : String, s ≠ "" →
      (∀ c ∈ s.data, isDigitCh c = false ∧ isJsSpace c = false ∧ c ≠ '-' ∧ c ≠ '+') →
      parseIntJs s = JsNum.nan) :=
  ⟨parseNavPoint_order, parseIntJs_all_digits, parseIntJs_no_digits⟩

/-- C8 witness: all three parts of the amended theorem at concrete inputs. -/
theorem claim_C8_witness :
    exNpC8.order = navOrderOf exC8 ∧
    parseIntJs "42" = JsNum.int (digitsVal "42".data) ∧
    parseIntJs "chapter" = JsNum.nan :=
  ⟨claim_C8_amended.1 exC8 exNpC8 rfl,
   claim_C8_amended.2.1 "42" (by decide) (by decide),
   claim_C8_amended.2.2 "chapter" (by decide) (by decide)⟩

/-- C9: the top-level parse is deterministic — two parses of the same input
produce structurally equal results (the embedded pipeline is a pure function
of the archive data and the parse-function collaborator; the source has no
other inputs, no global state, and its awaits are sequential). -/
theorem claim_C9 (px : String → Xml) (data : EpubData)
    (r1 r2 : Except EpubError EpubContent)
    (h1 : parseEpub px data = r1) (h2 : parseEpub px data = r2) : r1 = r2 :=
  h1.symm.trans h2

/-- C9 witness: re-parsing the concrete example archive. -/
theorem claim_C9_witness :
    parseEpub exPxC7 (.zip exZipW) = parseEpub exPxC7 (.zip exZipW) :=
  claim_C9 exPxC7 (.zip exZipW) _ _ rfl rfl

/-- C10: with an empty base directory (package document at the archive
root), any reference that does not start with a slash is returned verbatim —
its `.`/`..` segments are preserved unmodified. -/
theorem claim_C10 (r : String) (h : jsStartsWith r "/" = false) :
    resolveRelativePath r "" = r := by
  unfold resolveRelativePath
  rw [h]
  simp

/-- C10 witness: a dotted reference against the empty base. -/
theorem claim_C10_witness : resolveRelativePath "../images/cover.jpg" "" = "../images/cover.jpg" :=
  claim_C10 "../images/cover.jpg" (by decide)
